import Mathlib

/-!
Verification development for the bugakari table-extraction pipeline.

The development shallowly embeds the two core source files:

* `src/extract_tables_fromW.py` — the Segmenter: walks the rows of a
  physical document table, splitting it into logical sub-tables driven by
  the marker tokens `(注)` (annotation), `表` (header marker) and `単位`
  (unit token), and finalizes each sub-table into a Grid
  (`create_dataframe_from_rows`).
* `src/merge_tables.py` — the Classifier/Reshaper/Merger: classifies
  persisted Grids into groups, reshaping near-canonical Grids with a
  single-column merge (`handle_special_group1_case`) or a multi-column
  melt (`handle_multi_column_expansion_case`), and stable-sorts Group1
  Grids by a numeric key extracted from the `表` (TableID) column
  (`extract_table_sort_keys`).

Modelling conventions:
* a pandas DataFrame is a `Grid`: a list of column names plus a list of
  rows (lists of cell strings).  Cells are strings; a missing/NaN cell is
  modelled as the empty string.
* Python exceptions around file reads are modelled with `Except`.
* Python's `re` patterns used by the source are fixed and concrete, so
  they are embedded as recursive scanners over `List Char`
  (`\d` is modelled as the ASCII digits, which covers every identifier
  the pipeline handles).
* `float('inf')` sort keys are modelled by `Option`: `none` is the
  `(inf, inf)` key and sorts after every `some` key.
-/

namespace Bugakari

/-! ## Plain-string primitives (Python `in`, `startswith`, `"".join`, `strip`)

Defined over `List Char` so that every use kernel-reduces on concrete
input. -/

/-- `needle` occurs as a prefix of `hay` (Python `str.startswith`). -/
def listIsPrefix : List Char → List Char → Bool
  | [], _ => true
  | _ :: _, [] => false
  | a :: as, b :: bs => a == b && listIsPrefix as bs

/-- `needle` occurs as a contiguous substring of `hay` (Python `in`). -/
def listIsInfix (needle : List Char) : List Char → Bool
  | [] => listIsPrefix needle []
  | c :: rest => listIsPrefix needle (c :: rest) || listIsInfix needle rest

/-- Python `token in s` on strings. -/
def containsToken (token s : String) : Bool :=
  listIsInfix token.toList s.toList

/-- Python `s.startswith(token)`. -/
def startsWithTok (token s : String) : Bool :=
  listIsPrefix token.toList s.toList

/-- Python `"".join(row)`. -/
def joinRow (row : List String) : String :=
  String.join row

/-- Python `s.strip()` (whitespace from both ends). -/
def pyStrip (s : String) : String :=
  String.mk (((s.toList.dropWhile Char.isWhitespace).reverse.dropWhile
    Char.isWhitespace).reverse)

/-! ## The two regular expressions of `merge_tables.py`

`extract_table_sort_keys` uses `re.search(rf'^{prefix}.*?-(\d+)-(\d+)', s)`;
`is_valid_table_id_pattern` uses
`re.fullmatch(rf'^{prefix}.*?-\d+-\d+(?:【.*?】)*$', s)`.
Both patterns are anchored at the start, the prefixes are literal strings,
`.` does not match a newline, and the lazy `.*?` together with the greedy
`\d+` leaves no backtracking freedom inside `-(\d+)-(\d+)` (shrinking a
digit run leaves a digit where `-` or a block/end is required).  So a match
is: the literal prefix, then the first newline-free position at which
`-digits-digits` parses (followed, for the fullmatch, by bracket blocks up
to the end of the string). -/

/-- Maximal leading run of (ASCII) digits, with the remainder. -/
def takeDigits : List Char → List Char × List Char
  | [] => ([], [])
  | c :: rest =>
    if c.isDigit then
      let p := takeDigits rest
      (c :: p.1, p.2)
    else ([], c :: rest)

/-- Decimal value of a digit run. -/
def digitsToNat (l : List Char) : Nat :=
  l.foldl (fun n c => n * 10 + (c.toNat - '0'.toNat)) 0

/-- Attempt `-(\d+)-(\d+)` at the current position; on success returns the
two captured integers and the unconsumed remainder. -/
def dashIntIntAt (l : List Char) : Option ((Nat × Nat) × List Char) :=
  match l with
  | '-' :: r1 =>
    let p1 := takeDigits r1
    if p1.1.isEmpty then none
    else
      match p1.2 with
      | '-' :: r3 =>
        let p2 := takeDigits r3
        if p2.1.isEmpty then none
        else some ((digitsToNat p1.1, digitsToNat p2.1), p2.2)
      | _ => none
  | _ => none

/-- `re.search` of `.*?-(\d+)-(\d+)` after the anchored prefix: the first
position at which `-digits-digits` parses, without crossing a newline
(`.` does not match `\n`). -/
def searchDashIntInt : List Char → Option (Nat × Nat)
  | [] => none
  | c :: rest =>
    match dashIntIntAt (c :: rest) with
    | some p => some p.1
    | none => if c = '\n' then none else searchDashIntInt rest

/-- `extract_table_sort_keys` (`merge_tables.py:6`): sort key from a
TableID value.  `none` models `(float('inf'), float('inf'))`: the value
does not match `^{prefix}.*?-(\d+)-(\d+)` and sorts last. -/
def extract_table_sort_keys (table_value pfx : String) : Option (Nat × Nat) :=
  if startsWithTok pfx table_value then
    searchDashIntInt (table_value.toList.drop pfx.toList.length)
  else none

mutual
/-- `(?:【.*?】)*$`: the whole remainder is a sequence of `【...】` blocks
(the lazy inner `.*?` may contain anything but a newline, including further
brackets, thanks to regex backtracking). -/
def bracketBlocks : List Char → Bool
  | [] => true
  | c :: rest => if c = '【' then bracketInner rest else false

/-- Inside a `【...】` block: scan for a closing `】` whose remainder is
again a sequence of blocks. -/
def bracketInner : List Char → Bool
  | [] => false
  | c :: rest =>
    if c = '】' then (bracketBlocks rest || bracketInner rest)
    else if c = '\n' then false
    else bracketInner rest
end

/-- `-\d+-\d+(?:【.*?】)*$` at the current position (fullmatch core). -/
def coreFullAt (l : List Char) : Bool :=
  match dashIntIntAt l with
  | some p => bracketBlocks p.2
  | none => false

/-- Fullmatch of `.*?-\d+-\d+(?:【.*?】)*$` after the anchored prefix. -/
def validFullTail : List Char → Bool
  | [] => false
  | c :: rest => coreFullAt (c :: rest) || (c != '\n' && validFullTail rest)

/-- `is_valid_table_id_pattern` (`merge_tables.py:19`): every value of the
`表` column fullmatches `^{prefix}.*?-\d+-\d+(?:【.*?】)*$`; an empty
column fails. -/
def is_valid_table_id_pattern (vals : List String) (pfx : String) : Bool :=
  !vals.isEmpty && vals.all (fun v =>
    startsWithTok pfx v && validFullTail (v.toList.drop pfx.toList.length))

/-! ## Grids (pandas DataFrames) and the column operations the source uses -/

/-- A persisted row/column table: named columns plus rows of cell strings
(the embedding of a `pandas.DataFrame` read with `dtype=str`). -/
structure Grid where
  cols : List String
  rows : List (List String)
deriving Repr, DecidableEq

/-- First index of column `c` (Python `list.index` / pandas label lookup;
returns `cols.length` when absent, which the source rules out before every
use). -/
def colIdx (cols : List String) (c : String) : Nat :=
  cols.findIdx (fun x => x == c)

/-- The cell of `row` in column `c` (missing cells read as `""`). -/
def cellD (cols row : List String) (c : String) : String :=
  row.getD (colIdx cols c) ""

/-- The values of column `c` (pandas `df[c]` as a list). -/
def colValues (g : Grid) (c : String) : List String :=
  g.rows.map (fun r => cellD g.cols r c)

/-- `df[c] = df[c].astype(str) + sfx`: append a fixed string to every cell
of column `c`. -/
def appendNameToCol (g : Grid) (c sfx : String) : Grid :=
  let i := colIdx g.cols c
  ⟨g.cols, g.rows.map (fun r => r.set i (r.getD i "" ++ sfx))⟩

/-- `df[c] = df[c].astype(str) + df[src].astype(str)`: row-wise append the
cell of column `src` to the cell of column `c`. -/
def appendColToCol (g : Grid) (c src : String) : Grid :=
  let i := colIdx g.cols c
  let j := colIdx g.cols src
  ⟨g.cols, g.rows.map (fun r => r.set i (r.getD i "" ++ r.getD j ""))⟩

/-- `df.rename(columns={a: b})`: every column labelled `a` becomes `b`. -/
def renameCol (g : Grid) (a b : String) : Grid :=
  ⟨g.cols.map (fun c => if c = a then b else c), g.rows⟩

/-- `df[names]`: select/reorder columns by label. -/
def selectCols (g : Grid) (names : List String) : Grid :=
  ⟨names, g.rows.map (fun r => names.map (fun c => cellD g.cols r c))⟩

/-- `df.drop(columns=[c])`: delete every column labelled `c`. -/
def dropCol (g : Grid) (c : String) : Grid :=
  ⟨g.cols.filter (fun x => x != c),
   g.rows.map (fun r => ((g.cols.zip r).filter (fun p => p.1 != c)).map Prod.snd)⟩

/-- `df.melt(id_vars, value_vars, var_name, value_name)` (pandas): the
output stacks one copy of the frame per value column — all rows for the
first value column, then all rows for the second, and so on. -/
def meltGrid (g : Grid) (id_vars value_vars : List String)
    (var_name value_name : String) : Grid :=
  ⟨id_vars ++ [var_name, value_name],
   value_vars.flatMap (fun v =>
     g.rows.map (fun r =>
       id_vars.map (fun c => cellD g.cols r c) ++ [v, cellD g.cols r v]))⟩

/-- The column reordering at `merge_tables.py:96-108` and `181-193`:
expected columns that are present, in expected order, then the remaining
columns in input order (without re-adding duplicates). -/
def orderedColumns (current expected : List String) : List String :=
  current.foldl
    (fun acc c =>
      if !(expected.contains c) && !(acc.contains c) then acc ++ [c]
      else acc)
    (expected.filter (fun c => current.contains c))

/-- The canonical column set `expected_base_columns`
(`merge_tables.py:213`): TableID, WorkName, Name, Description, Unit,
Quantity, Remarks. -/
def expectedBaseColumns : List String :=
  ["表", "作業名", "名称", "摘要", "単位", "所要量", "備考"]

/-- `min_group2_columns` (`merge_tables.py:215`). -/
def minGroup2Columns : List String :=
  ["名称", "摘要", "単位", "所要量", "備考"]

/-! ## The two reshaping transforms -/

/-- `handle_special_group1_case` (`merge_tables.py:39`): the single-column
merge.  `df = df_original.copy()` gives the local frame value semantics;
the `Except` return models the Python `(df, None) / (None, msg)` pair. -/
def handle_special_group1_case (df_original : Grid) (file_path : String)
    (expected_base_columns : List String) : Except String Grid :=
  let df := df_original
  let col_list := df.cols
  let expected_prefix_cols := expected_base_columns.take 5
  let expected_suffix_col := expected_base_columns.getD 6 ""
  if ¬("単位" ∈ col_list ∧ "備考" ∈ col_list ∧ "作業名" ∈ col_list ∧
       "表" ∈ col_list) then
    .error "required columns missing"
  else if col_list.take 5 ≠ expected_prefix_cols then
    .error "prefix columns mismatch"
  else if ¬(6 < col_list.length ∧ col_list.getD 6 "" = expected_suffix_col) then
    .error "remarks column not at index 6"
  else
    let col_to_merge_name := col_list.getD 5 ""
    if col_to_merge_name = "所要量" then
      .error "index 5 already quantity"
    else
      let idx_unit : Int := colIdx col_list "単位"
      let idx_remarks : Int := colIdx col_list "備考"
      if ¬(idx_remarks - idx_unit - 1 = 1) then
        .error "not exactly one column between unit and remarks"
      else
        let df := appendNameToCol df "作業名" col_to_merge_name
        let df := renameCol df col_to_merge_name "所要量"
        let ordered_cols := orderedColumns df.cols expected_base_columns
        .ok (selectCols df ordered_cols)

/-- `handle_multi_column_expansion_case` (`merge_tables.py:113`): the
multi-column melt.  `file_path` is carried (unused) as in the source. -/
def handle_multi_column_expansion_case (df_original : Grid)
    (file_path : String) (expected_base_columns : List String) :
    Except String Grid :=
  let df := df_original
  let col_list := df.cols
  if "所要量" ∈ col_list then
    .error "quantity column already present"
  else if ¬("単位" ∈ col_list ∧ "備考" ∈ col_list ∧ "作業名" ∈ col_list ∧
      "表" ∈ col_list) then
    .error "required columns missing"
  else
    let idx_unit := colIdx col_list "単位"
    let idx_remarks := colIdx col_list "備考"
    if ¬((idx_unit : Int) < (idx_remarks : Int) - 1 ∧
         (idx_remarks : Int) - (idx_unit : Int) - 1 > 1) then
      .error "no multiple columns between unit and remarks"
    else if col_list.take 5 ≠ expected_base_columns.take 5 then
      .error "prefix columns mismatch"
    else
      let columns_to_melt := (col_list.drop (idx_unit + 1)).take
        (idx_remarks - (idx_unit + 1))
      let id_vars := col_list.take (idx_unit + 1) ++ col_list.drop idx_remarks
      let df_melted := meltGrid df id_vars columns_to_melt "展開列名" "所要量"
      let df_melted := appendColToCol df_melted "作業名" "展開列名"
      let df_melted := dropCol df_melted "展開列名"
      .ok (selectCols df_melted (orderedColumns df_melted.cols
        expected_base_columns))

/-- C10's frame view of the single-column merge: the pair
`(state of df_original after the call, return value)`.  Because line 54
copies (`df = df_original.copy()`) before the column assignment, rename and
reorder, every write targets the copy and the caller's frame is the
argument itself. -/
def handle_special_group1_case_call (df_original : Grid) (file_path : String)
    (expected_base_columns : List String) : Grid × Except String Grid :=
  (df_original,
   handle_special_group1_case df_original file_path expected_base_columns)

/-- C10's frame view of the multi-column melt (copy at line 127). -/
def handle_multi_column_expansion_case_call (df_original : Grid)
    (file_path : String) (expected_base_columns : List String) :
    Grid × Except String Grid :=
  (df_original,
   handle_multi_column_expansion_case df_original file_path
     expected_base_columns)

/-! ## The Segmenter (`extract_tables_fromW.py`) -/

/-- `create_dataframe_from_rows` (`extract_tables_fromW.py:158`): finalize
a sub-table.  The first row is the header; `作業名` (WorkName) is
prepended to the header and the work-name to every data row; header and
rows are right-padded with `""` to the maximum width. -/
def create_dataframe_from_rows (rows : List (List String))
    (preceding_text : String) : Option Grid :=
  match rows with
  | [] => none
  | headers :: rows_data =>
    let final_headers := "作業名" :: headers
    let processed_rows_data := rows_data.map (fun row => preceding_text :: row)
    let max_cols := max final_headers.length
      (if processed_rows_data.isEmpty then 0
       else (processed_rows_data.map List.length).foldr max 0)
    some ⟨final_headers ++ List.replicate (max_cols - final_headers.length) "",
          processed_rows_data.map (fun row =>
            row ++ List.replicate (max_cols - row.length) "")⟩

/-- The per-row mutable state of the segmentation loop
(`extract_tables_fromW.py:42-51`), one field per Python local. -/
structure SegState where
  current_sub_table_rows : List (List String)
  building_sub_table : Bool
  current_sub_table_work_name : String
  found_hyo_marker_row_data : Option (List String)
  row_after_hyo_row_data : Option (List String)
  is_split_sub_table : Bool
  extracted_dfs : List Grid
deriving Repr, DecidableEq

/-- The repeated finalize-and-emit block
(`if building_sub_table and current_sub_table_rows: ... append`). -/
def emitCurrent (st : SegState) : List Grid :=
  if st.building_sub_table ∧ st.current_sub_table_rows ≠ [] then
    (create_dataframe_from_rows st.current_sub_table_rows
      st.current_sub_table_work_name).toList
  else []

/-- One iteration of the row loop (`extract_tables_fromW.py:53-147`), in
the source's priority order: annotation marker `(注)`, lookahead
continuation/resolution after a `表` marker, the `表` marker itself, the
default first-row header, then data-row accumulation. -/
def processRow (preceding : String) (st : SegState)
    (row_data : List String) : SegState :=
  let combined_row_text := joinRow row_data
  if containsToken "(注)" combined_row_text then
    { current_sub_table_rows := [], building_sub_table := false,
      current_sub_table_work_name := "", found_hyo_marker_row_data := none,
      row_after_hyo_row_data := none, is_split_sub_table := true,
      extracted_dfs := st.extracted_dfs ++ emitCurrent st }
  else
    match st.found_hyo_marker_row_data with
    | some _ =>
      match st.row_after_hyo_row_data with
      | none =>
        { st with row_after_hyo_row_data := some row_data }
      | some rowA =>
        let hasUnit := containsToken "単位" combined_row_text
        { current_sub_table_rows := [if hasUnit then row_data else rowA],
          building_sub_table := true,
          current_sub_table_work_name := if hasUnit then joinRow rowA else "",
          found_hyo_marker_row_data := none, row_after_hyo_row_data := none,
          is_split_sub_table := true,
          extracted_dfs := st.extracted_dfs ++ emitCurrent st }
    | none =>
      if containsToken "表" combined_row_text then
        { current_sub_table_rows := [], building_sub_table := false,
          current_sub_table_work_name := "",
          found_hyo_marker_row_data := some row_data,
          row_after_hyo_row_data := none, is_split_sub_table := true,
          extracted_dfs := st.extracted_dfs ++ emitCurrent st }
      else if !st.building_sub_table ∧ st.row_after_hyo_row_data = none then
        { current_sub_table_rows := [row_data], building_sub_table := true,
          current_sub_table_work_name := preceding,
          found_hyo_marker_row_data := none, row_after_hyo_row_data := none,
          is_split_sub_table := false, extracted_dfs := st.extracted_dfs }
      else if st.building_sub_table then
        { st with current_sub_table_rows :=
            st.current_sub_table_rows ++ [row_data] }
      else st

/-- The loop's initial state for one physical table block. -/
def initSegState : SegState := ⟨[], false, "", none, none, false, []⟩

/-- Segment one physical table block into Grids
(`extract_tables_fromW.py:42-154`): fold the rows, then finalize any
sub-table still being built. -/
def processTableBlock (preceding : String)
    (rows : List (List String)) : List Grid :=
  let final := rows.foldl (processRow preceding) initSegState
  final.extracted_dfs ++ emitCurrent final

/-- A document body element (`extract_tables_fromW.py:24-29`): a paragraph
with its text, or a table with its rows of (already extracted) cell
strings. -/
inductive Block where
  | paragraph : String → Block
  | table : List (List String) → Block
deriving Repr, DecidableEq

/-- `extract_tables_from_docx` (`extract_tables_fromW.py:6`): walk the
block stream; for each table block the work-name seed is the stripped text
of the immediately preceding paragraph block (empty otherwise), and each
cell is stripped on read. -/
def extract_tables_from_docx_aux : Option Block → List Block → List Grid
  | _, [] => []
  | prev, b :: rest =>
    (match b with
     | .paragraph _ => []
     | .table rows =>
       let preceding := match prev with
         | some (.paragraph t) => pyStrip t
         | _ => ""
       processTableBlock preceding (rows.map (fun r => r.map pyStrip)))
    ++ extract_tables_from_docx_aux (some b) rest

/-- Entry point of the Segmenter over one document's block stream. -/
def extract_tables_from_docx (blocks : List Block) : List Grid :=
  extract_tables_from_docx_aux none blocks

/-! ## The Classifier (`process_nested_csvs`, `merge_tables.py:199-308`) -/

/-- The classification outcome for one Grid; `group1Main`/`group1Annex`
carry the (possibly reshaped) Grid appended to the merge list. -/
inductive ClassResult where
  | group1Main : Grid → ClassResult
  | group1Annex : Grid → ClassResult
  | group2 : ClassResult
  | group3 : ClassResult
  | group4 : ClassResult
deriving Repr, DecidableEq

/-- Prefix determination from the first TableID value
(`merge_tables.py:241-246`): `表` when it starts with `表` but not `別表`,
`別表` when it starts with `別表`, otherwise undefined. -/
def pfxOfFirst (v : String) : Option String :=
  if startsWithTok "表" v ∧ ¬ (startsWithTok "別表" v = true) then some "表"
  else if startsWithTok "別表" v then some "別表"
  else none

/-- `current_table_id_prefix and is_valid_table_id_pattern(...)`: the
prefix, provided the pattern check passes on `g`'s `表` column. -/
def passPattern (pfx : Option String) (g : Grid) : Option String :=
  match pfx with
  | some p => if is_valid_table_id_pattern (colValues g "表") p then some p
              else none
  | none => none

/-- Group1 destination by prefix (`merge_tables.py:256` etc.). -/
def group1Target (p : String) (g : Grid) : ClassResult :=
  if p = "表" then .group1Main g else .group1Annex g

/-- One reshape attempt (`modified_df, error_msg = handle_...(...)` plus
the pattern re-check on the reshaped Grid): the Group1 prefix and Grid to
append when the transform applied and the reshaped `表` column passes. -/
def tryReshape : Except String Grid → Option String → Option (String × Grid)
  | .ok m, pfx => (passPattern pfx m).map (fun p => (p, m))
  | .error _, _ => none

/-- `is_classified_as_group1` short-circuiting: the first successful
Group1 attempt wins. -/
def firstSomeC : Option (String × Grid) → Option (String × Grid) →
    Option (String × Grid)
  | some pm, _ => some pm
  | none, o => o

/-- Dispatch: a successful Group1 attempt, or the Group2/3/4 fallback. -/
def dispatchGroup1 : Option (String × Grid) → ClassResult → ClassResult
  | some pm, _ => group1Target pm.1 pm.2
  | none, fb => fb

/-- Strip surrounding whitespace from every column name
(`merge_tables.py:230`), applied between reading and classifying. -/
def stripCols (g : Grid) : Grid :=
  ⟨g.cols.map pyStrip, g.rows⟩

/-- The per-file classification body (`merge_tables.py:232-304`), after a
successful read and column strip: Group3 for a missing `表` column or an
empty frame; then strict Group1, single-column-merge Group1,
multi-column-melt Group1, Group4, Group2, Group3 — first match wins. -/
def classify (df : Grid) : ClassResult :=
  let col_list := df.cols
  if "表" ∉ col_list ∨ df.rows.isEmpty ∨ df.cols.isEmpty then .group3
  else
    let first_table_id_value := cellD col_list (df.rows.headD []) "表"
    let pfx := pfxOfFirst first_table_id_value
    let strict : Option (String × Grid) :=
      if 7 ≤ col_list.length ∧ col_list.take 7 = expectedBaseColumns then
        (passPattern pfx df).map (fun p => (p, df))
      else none
    dispatchGroup1
      (firstSomeC strict
        (firstSomeC
          (tryReshape (handle_special_group1_case df "" expectedBaseColumns)
            pfx)
          (tryReshape
            (handle_multi_column_expansion_case df "" expectedBaseColumns)
            pfx)))
      (if pfx.isNone then .group4
       else if (minGroup2Columns.filter
           (fun c => !col_list.contains c)).length = 1 then .group2
       else .group3)

/-- The five accumulating group lists of `process_nested_csvs`
(`merge_tables.py:206-210`). -/
structure ClassifyState where
  g1main : List (Grid × String)
  g1annex : List (Grid × String)
  g2 : List String
  g3 : List String
  g4 : List String
deriving Repr, DecidableEq

/-- The empty accumulator. -/
def emptyClassifyState : ClassifyState := ⟨[], [], [], [], []⟩

/-- One iteration of the per-file loop (`merge_tables.py:226-308`).  A
file is a path paired with the outcome of reading it: `Except.error`
models an exception raised by `pd.read_csv`/parsing, which the
`try/except` converts into Group3 membership; `Except.ok` is the read
Grid, whose column names are then stripped and classified. -/
def processOne (st : ClassifyState) (item : String × Except String Grid) :
    ClassifyState :=
  match item.2 with
  | .error _ => { st with g3 := st.g3 ++ [item.1] }
  | .ok df0 =>
    match classify (stripCols df0) with
    | .group1Main g => { st with g1main := st.g1main ++ [(g, item.1)] }
    | .group1Annex g => { st with g1annex := st.g1annex ++ [(g, item.1)] }
    | .group2 => { st with g2 := st.g2 ++ [item.1] }
    | .group3 => { st with g3 := st.g3 ++ [item.1] }
    | .group4 => { st with g4 := st.g4 ++ [item.1] }

/-- The whole per-file loop: a total function — no exception escapes an
iteration, so the fold always reaches the next file. -/
def processFiles (items : List (String × Except String Grid)) :
    ClassifyState :=
  items.foldl processOne emptyClassifyState

/-- Componentwise concatenation of two accumulator states. -/
def combineStates (s t : ClassifyState) : ClassifyState :=
  ⟨s.g1main ++ t.g1main, s.g1annex ++ t.g1annex, s.g2 ++ t.g2,
   s.g3 ++ t.g3, s.g4 ++ t.g4⟩

/-! ## The Merger sort (`merge_tables.py:310-322`) -/

/-- Comparison of sort keys: `none` is `(inf, inf)` and sorts after every
numeric key; numeric keys compare lexicographically. -/
def sortKeyLe (a b : Option (Nat × Nat)) : Bool :=
  match a, b with
  | some x, some y => decide (x.1 < y.1 ∨ (x.1 = y.1 ∧ x.2 ≤ y.2))
  | some _, none => true
  | none, some _ => false
  | none, none => true

/-- The key of one Group1 entry:
`extract_table_sort_keys(x[0].iloc[0]['表'], prefix)`
(`merge_tables.py:312`). -/
def gridKey (pfx : String) (x : Grid × String) : Option (Nat × Nat) :=
  extract_table_sort_keys (cellD x.1.cols (x.1.rows.headD []) "表") pfx

/-- Stable insertion: place `x` before the first element whose key is not
below `x`'s. -/
def insertByKey (k : Grid × String → Option (Nat × Nat)) (x : Grid × String) :
    List (Grid × String) → List (Grid × String)
  | [] => [x]
  | y :: ys =>
    if sortKeyLe (k x) (k y) then x :: y :: ys else y :: insertByKey k x ys

/-- Stable insertion sort by key.  Python's `list.sort` is a stable sort,
and a stable sort for a total preorder has a unique result, so this is
extensionally `group1_dfs.sort(key=...)`. -/
def stableSortByKey (k : Grid × String → Option (Nat × Nat))
    (l : List (Grid × String)) : List (Grid × String) :=
  l.foldr (insertByKey k) []

/-- The Merger's sort of one prefix's Group1 list (`merge_tables.py:312`,
`321`). -/
def sortGroup1 (pfx : String) (l : List (Grid × String)) :
    List (Grid × String) :=
  stableSortByKey (gridKey pfx) l

/-- The cell segments of one data row of a Grid the multi-column melt
applies to: the five canonical leading cells, the cells of the intervening
(melted) columns, the Remarks cell, and the cells of the trailing extra
columns. -/
structure MeltRowParts where
  tid : String
  wn : String
  nm : String
  ds : String
  un : String
  ms : List String
  rk : String
  es : List String
deriving Repr, DecidableEq

/-- Flatten row segments back into the row of the input Grid. -/
def meltRowFlat (p : MeltRowParts) : List String :=
  [p.tid, p.wn, p.nm, p.ds, p.un] ++ p.ms ++ [p.rk] ++ p.es

end Bugakari

namespace Bugakari

/-! ## General helper lemmas -/

lemma le_foldr_max {a b : Nat} {l : List Nat} (h : a ∈ l) :
    a ≤ l.foldr max b := by
  induction l with
  | nil => cases h
  | cons c tl ih =>
    rcases List.mem_cons.mp h with rfl | h'
    · exact le_max_left _ _
    · exact le_trans (ih h') (le_max_right _ _)

lemma maxColsIf (l : List (List String)) :
    (if l.isEmpty then 0 else (l.map List.length).foldr max 0) =
      (l.map List.length).foldr max 0 := by
  cases l <;> simp

/-! ## C7 — finalization of a sub-table -/

/-- C7: finalizing a sub-table with header `[H1,H2]`, work-name `W` and
one data row `[A,B]` yields the Grid with columns `[作業名,H1,H2]` and
the single row `[W,A,B]`; in general the finalized Grid's columns are
`作業名` followed by the header cells and each data row is the work-name
followed by its cells, with the header and every data row padded with
`""` to the maximum width over the header and all data rows. -/
theorem c7_finalize (W H1 H2 A B : String) (header : List String)
    (rows : List (List String)) (w : String) :
    create_dataframe_from_rows [[H1, H2], [A, B]] W =
      some ⟨["作業名", H1, H2], [[W, A, B]]⟩ ∧
    ∃ g, create_dataframe_from_rows (header :: rows) w = some g ∧
      g.cols = ("作業名" :: header) ++
        List.replicate
          (max (header.length + 1)
            ((rows.map (fun r => r.length + 1)).foldr max 0) -
            (header.length + 1)) "" ∧
      g.rows = rows.map (fun r => (w :: r) ++
        List.replicate
          (max (header.length + 1)
            ((rows.map (fun r => r.length + 1)).foldr max 0) -
            (r.length + 1)) "") ∧
      g.cols.length =
        max (header.length + 1)
          ((rows.map (fun r => r.length + 1)).foldr max 0) ∧
      ∀ r ∈ g.rows, r.length =
        max (header.length + 1)
          ((rows.map (fun r => r.length + 1)).foldr max 0) := by
  set m := max (header.length + 1)
    ((rows.map (fun r => r.length + 1)).foldr max 0) with hm
  refine ⟨rfl, ?_⟩
  have hdef : create_dataframe_from_rows (header :: rows) w =
      some ⟨("作業名" :: header) ++
              List.replicate (m - (header.length + 1)) "",
            rows.map (fun r => (w :: r) ++
              List.replicate (m - (r.length + 1)) "")⟩ := by
    rw [hm]
    cases rows with
    | nil => simp [create_dataframe_from_rows]
    | cons a tl =>
      have hc : (List.length ∘ fun row : List String => w :: row) =
          fun r : List String => r.length + 1 := funext fun r => rfl
      simp [create_dataframe_from_rows, List.map_map, hc]
  refine ⟨_, hdef, rfl, rfl, ?_, ?_⟩
  · have h1 : header.length + 1 ≤ m := le_max_left _ _
    simp only [List.length_append, List.length_cons, List.length_replicate]
    omega
  · intro r hr
    rcases List.mem_map.mp hr with ⟨r0, hr0, rfl⟩
    have h2 : r0.length + 1 ≤ m := by
      refine le_trans ?_ (le_max_right _ _)
      exact le_foldr_max (List.mem_map.mpr ⟨r0, hr0, rfl⟩)
    simp only [List.length_append, List.length_cons, List.length_replicate]
    omega

/-! ## C2 — corrected: a header-only sub-table is finalized to a Grid and
emitted -/

/-- C2 counterexample: a sub-table consisting of a header row only (zero
data rows) does NOT yield "no Grid": the Segmenter emits a Grid with zero
data rows for it. -/
theorem c2_counterexample :
    processTableBlock "" [["H1", "H2"]] =
      [⟨["作業名", "H1", "H2"], []⟩] ∧
    (⟨["作業名", "H1", "H2"], []⟩ : Grid).rows.length = 0 :=
  ⟨rfl, rfl⟩

/-- C2 amended: finalization yields no Grid only for a sub-table with no
rows at all (header included); a sub-table with a header row — even with
zero data rows or an empty header — finalizes to a Grid with zero data
rows, which the Segmenter emits rather than drops. -/
theorem c2_amended (w : String) (rows : List (List String))
    (hd : List String) :
    (create_dataframe_from_rows rows w = none ↔ rows = []) ∧
    (∃ g, create_dataframe_from_rows [hd] w = some g ∧ g.rows = []) := by
  constructor
  · cases rows <;> simp [create_dataframe_from_rows]
  · exact ⟨_, rfl, rfl⟩

/-! ## C8 — the annotation marker `(注)` -/

/-- C8: consuming a row whose concatenated text contains `(注)` finalizes
and emits the sub-table being built (if it has accumulated rows) and
resets the machine to scanning; the resulting state does not depend on the
marker row's cells, so the row contributes nothing to any emitted Grid —
in particular a whole block's output is unchanged when one annotation row
is replaced by any other annotation row. -/
theorem c8_annotation (preceding : String) (st : SegState)
    (row r1 r2 : List String) (rows1 rows2 : List (List String))
    (h : containsToken "(注)" (joinRow row) = true)
    (h1 : containsToken "(注)" (joinRow r1) = true)
    (h2 : containsToken "(注)" (joinRow r2) = true) :
    processRow preceding st row =
      ⟨[], false, "", none, none, true,
        st.extracted_dfs ++ emitCurrent st⟩ ∧
    processTableBlock preceding (rows1 ++ r1 :: rows2) =
      processTableBlock preceding (rows1 ++ r2 :: rows2) := by
  have step : ∀ (s : SegState) (r : List String),
      containsToken "(注)" (joinRow r) = true →
      processRow preceding s r =
        ⟨[], false, "", none, none, true,
          s.extracted_dfs ++ emitCurrent s⟩ := by
    intro s r hr
    simp [processRow, hr]
  refine ⟨step st row h, ?_⟩
  simp only [processTableBlock, List.foldl_append, List.foldl_cons]
  rw [step _ r1 h1, step _ r2 h2]

/-- C8 witness: a concrete annotation row terminates a sub-table in
progress, emitting its Grid, and two different annotation rows leave the
block output identical. -/
theorem c8_annotation_witness :
    (containsToken "(注)" (joinRow [" (注)x"]) = true ∧
     containsToken "(注)" (joinRow [["(注)y"].headD ""]) = true) ∧
    processRow "" (⟨[["H"]], true, "W", none, none, false, []⟩ : SegState)
        [" (注)x"] =
      ⟨[], false, "", none, none, true, [⟨["作業名", "H"], []⟩]⟩ ∧
    processTableBlock "" ([["a"]] ++ [" (注)x"] :: [[ "b" ]]) =
      processTableBlock "" ([["a"]] ++ ["(注)y"] :: [[ "b" ]]) := by
  have h := c8_annotation "" ⟨[["H"]], true, "W", none, none, false, []⟩
    [" (注)x"] [" (注)x"] ["(注)y"] [["a"]] [["b"]]
    (by decide) (by decide) (by decide)
  refine ⟨⟨by decide, by decide⟩, ?_, h.2⟩
  rw [h.1]
  rfl

/-! ## C4 — resolution of the two-row lookahead -/

/-- C4: in the lookahead state (header marker seen, row A captured),
consuming a row B that does not carry the annotation marker resolves the
lookahead: if row B's concatenated text contains `単位`, the new
sub-table's header is row B and its work-name is row A's concatenated
text, otherwise the header is row A and the work-name is empty; row B is
consumed (it becomes at most the header, never a data row), any sub-table
built before the marker is emitted, and building starts on the new
header. -/
theorem c4_lookahead (preceding : String) (st : SegState)
    (m rowA rowB : List String)
    (hf : st.found_hyo_marker_row_data = some m)
    (ha : st.row_after_hyo_row_data = some rowA)
    (hnote : containsToken "(注)" (joinRow rowB) = false) :
    processRow preceding st rowB =
      { current_sub_table_rows :=
          [if containsToken "単位" (joinRow rowB) then rowB else rowA],
        building_sub_table := true,
        current_sub_table_work_name :=
          if containsToken "単位" (joinRow rowB) then joinRow rowA else "",
        found_hyo_marker_row_data := none,
        row_after_hyo_row_data := none,
        is_split_sub_table := true,
        extracted_dfs := st.extracted_dfs ++ emitCurrent st } := by
  simp [processRow, hnote, hf, ha]

/-- C4 witness: the spec's scenario — a block
`[marker "表5.1", capA, capB ∋ "単位", data1]` resolves with header capB
and work-name `capA` joined, and yields exactly one Grid with one data
row. -/
theorem c4_lookahead_witness :
    (containsToken "(注)" (joinRow ["名称", "単位"]) = false) ∧
    processRow ""
        (⟨[], false, "", some ["表5.1"], some ["工事X"], true, []⟩ : SegState)
        ["名称", "単位"] =
      ⟨[["名称", "単位"]], true, "工事X", none, none, true, []⟩ ∧
    processTableBlock "" [["表5.1"], ["工事X"], ["名称", "単位"], ["a", "b"]] =
      [⟨["作業名", "名称", "単位"], [["工事X", "a", "b"]]⟩] := by
  refine ⟨by decide, ?_, rfl⟩
  rw [c4_lookahead ""
    ⟨[], false, "", some ["表5.1"], some ["工事X"], true, []⟩
    ["表5.1"] ["工事X"] ["名称", "単位"] rfl rfl (by decide)]
  rfl

/-! ## C10 — the reshapers do not mutate their argument -/

/-- C10: both reshaping transforms operate on a copy
(`df = df_original.copy()` at `merge_tables.py:54` and `127`): whether or
not the transform applies, the caller's DataFrame — its column names, its
rows, hence its row count and cell values — is unchanged after the call.
The `_call` forms return the post-call state of the argument object
alongside the transform result. -/
theorem c10_frame (g : Grid) (fp : String) (expected : List String) :
    ((handle_special_group1_case_call g fp expected).1 = g ∧
     (handle_special_group1_case_call g fp expected).2 =
       handle_special_group1_case g fp expected) ∧
    ((handle_multi_column_expansion_case_call g fp expected).1 = g ∧
     (handle_multi_column_expansion_case_call g fp expected).2 =
       handle_multi_column_expansion_case g fp expected) :=
  ⟨⟨rfl, rfl⟩, ⟨rfl, rfl⟩⟩

/-! ## C9 — per-file error isolation -/

lemma processOne_shift (st : ClassifyState)
    (item : String × Except String Grid) :
    processOne st item =
      combineStates st (processOne emptyClassifyState item) := by
  rcases item with ⟨p, x⟩
  cases x with
  | error e =>
    simp [processOne, combineStates, emptyClassifyState]
  | ok df0 =>
    cases h : classify (stripCols df0) <;>
      simp [processOne, combineStates, emptyClassifyState, h]

lemma combineStates_assoc (a b c : ClassifyState) :
    combineStates (combineStates a b) c =
      combineStates a (combineStates b c) := by
  simp [combineStates, List.append_assoc]

lemma combineStates_empty (a : ClassifyState) :
    combineStates a emptyClassifyState = a := by
  cases a
  simp [combineStates, emptyClassifyState]

lemma foldl_processOne (items : List (String × Except String Grid))
    (st : ClassifyState) :
    items.foldl processOne st = combineStates st (processFiles items) := by
  induction items generalizing st with
  | nil => simp [processFiles, combineStates_empty]
  | cons a tl ih =>
    simp only [List.foldl_cons, processFiles] at *
    rw [ih (processOne st a), ih (processOne emptyClassifyState a),
      processOne_shift st a, combineStates_assoc]

/-- C9: a file whose read/classification raises (modelled `Except.error`)
is routed to Group3 and the loop continues: the run over
`pre ++ [failing file] ++ post` assigns every other group exactly the
concatenation of what `pre` and `post` alone produce, and Group3
additionally receives the failing path, in position.  `processFiles` is a
total function: no exception propagates out of the per-file loop. -/
theorem c9_isolation (pre post : List (String × Except String Grid))
    (p e : String) :
    (processFiles (pre ++ (p, Except.error e) :: post)).g1main =
        (processFiles pre).g1main ++ (processFiles post).g1main ∧
    (processFiles (pre ++ (p, Except.error e) :: post)).g1annex =
        (processFiles pre).g1annex ++ (processFiles post).g1annex ∧
    (processFiles (pre ++ (p, Except.error e) :: post)).g2 =
        (processFiles pre).g2 ++ (processFiles post).g2 ∧
    (processFiles (pre ++ (p, Except.error e) :: post)).g3 =
        (processFiles pre).g3 ++ p :: (processFiles post).g3 ∧
    (processFiles (pre ++ (p, Except.error e) :: post)).g4 =
        (processFiles pre).g4 ++ (processFiles post).g4 := by
  have h : processFiles (pre ++ (p, Except.error e) :: post) =
      combineStates
        (combineStates (processFiles pre)
          (processOne emptyClassifyState (p, Except.error e)))
        (processFiles post) := by
    have h1 : processFiles (pre ++ (p, Except.error e) :: post) =
        List.foldl processOne
          (processOne (processFiles pre) (p, Except.error e)) post := by
      simp only [processFiles, List.foldl_append, List.foldl_cons]
    rw [h1, foldl_processOne post, processOne_shift]
  rw [h]
  simp [combineStates, processOne, emptyClassifyState]

end Bugakari

namespace Bugakari

/-! ## C5 — the Merger's stable sort -/

lemma sortKeyLe_refl (a : Option (Nat × Nat)) : sortKeyLe a a = true := by
  rcases a with _ | ⟨a1, a2⟩ <;> simp [sortKeyLe]

lemma sortKeyLe_trans {a b c : Option (Nat × Nat)}
    (h1 : sortKeyLe a b = true) (h2 : sortKeyLe b c = true) :
    sortKeyLe a c = true := by
  rcases a with _ | ⟨a1, a2⟩ <;> rcases b with _ | ⟨b1, b2⟩ <;>
    rcases c with _ | ⟨c1, c2⟩ <;> simp [sortKeyLe] at * <;> omega

lemma sortKeyLe_total (a b : Option (Nat × Nat)) :
    sortKeyLe a b = true ∨ sortKeyLe b a = true := by
  rcases a with _ | ⟨a1, a2⟩ <;> rcases b with _ | ⟨b1, b2⟩ <;>
    simp [sortKeyLe] <;> omega

lemma insertByKey_perm (k : Grid × String → Option (Nat × Nat))
    (x : Grid × String) (l : List (Grid × String)) :
    List.Perm (insertByKey k x l) (x :: l) := by
  induction l with
  | nil => exact List.Perm.refl _
  | cons y ys ih =>
    simp only [insertByKey]
    split
    · exact List.Perm.refl _
    · exact (List.Perm.cons y ih).trans (List.Perm.swap x y ys)

lemma mem_insertByKey {k : Grid × String → Option (Nat × Nat)}
    {x a : Grid × String} {l : List (Grid × String)}
    (h : a ∈ insertByKey k x l) : a = x ∨ a ∈ l := by
  have := (insertByKey_perm k x l).mem_iff.mp h
  simpa using this

lemma pairwise_insertByKey (k : Grid × String → Option (Nat × Nat))
    (x : Grid × String) (l : List (Grid × String))
    (h : l.Pairwise (fun a b => sortKeyLe (k a) (k b) = true)) :
    (insertByKey k x l).Pairwise
      (fun a b => sortKeyLe (k a) (k b) = true) := by
  induction l with
  | nil => simp [insertByKey]
  | cons y ys ih =>
    rcases List.pairwise_cons.mp h with ⟨hy, hys⟩
    simp only [insertByKey]
    by_cases hxy : sortKeyLe (k x) (k y) = true
    · rw [if_pos hxy]
      refine List.pairwise_cons.mpr ⟨?_, h⟩
      intro z hz
      rcases List.mem_cons.mp hz with rfl | hz'
      · exact hxy
      · exact sortKeyLe_trans hxy (hy z hz')
    · rw [if_neg hxy]
      refine List.pairwise_cons.mpr ⟨?_, ih hys⟩
      intro z hz
      rcases mem_insertByKey hz with hzx | hz'
      · rw [hzx]
        rcases sortKeyLe_total (k x) (k y) with h1 | h1
        · exact absurd h1 hxy
        · exact h1
      · exact hy z hz'

lemma stableSortByKey_perm (k : Grid × String → Option (Nat × Nat))
    (l : List (Grid × String)) :
    List.Perm (stableSortByKey k l) l := by
  induction l with
  | nil => exact List.Perm.refl _
  | cons a tl ih =>
    exact (insertByKey_perm k a (stableSortByKey k tl)).trans
      (List.Perm.cons a ih)

lemma stableSortByKey_pairwise (k : Grid × String → Option (Nat × Nat))
    (l : List (Grid × String)) :
    (stableSortByKey k l).Pairwise
      (fun a b => sortKeyLe (k a) (k b) = true) := by
  induction l with
  | nil => simp [stableSortByKey]
  | cons a tl ih => exact pairwise_insertByKey k a _ ih

lemma filter_insertByKey_eq {k : Grid × String → Option (Nat × Nat)}
    {x : Grid × String} {key0 : Option (Nat × Nat)}
    (l : List (Grid × String)) (h : k x = key0) :
    (insertByKey k x l).filter (fun a => decide (k a = key0)) =
      x :: l.filter (fun a => decide (k a = key0)) := by
  induction l with
  | nil => simp [insertByKey, h]
  | cons y ys ih =>
    simp only [insertByKey]
    by_cases hxy : sortKeyLe (k x) (k y) = true
    · rw [if_pos hxy]
      simp [List.filter_cons, h]
    · rw [if_neg hxy]
      have hyk : k y ≠ key0 := by
        intro hk
        exact hxy (h ▸ hk ▸ sortKeyLe_refl (k y))
      simp [List.filter_cons, hyk, ih]

lemma filter_insertByKey_ne {k : Grid × String → Option (Nat × Nat)}
    {x : Grid × String} {key0 : Option (Nat × Nat)}
    (l : List (Grid × String)) (h : k x ≠ key0) :
    (insertByKey k x l).filter (fun a => decide (k a = key0)) =
      l.filter (fun a => decide (k a = key0)) := by
  induction l with
  | nil => simp [insertByKey, h]
  | cons y ys ih =>
    simp only [insertByKey]
    by_cases hxy : sortKeyLe (k x) (k y) = true
    · rw [if_pos hxy]
      simp [List.filter_cons, h]
    · rw [if_neg hxy]
      simp [List.filter_cons, ih]

lemma filter_stableSortByKey (k : Grid × String → Option (Nat × Nat))
    (l : List (Grid × String)) (key0 : Option (Nat × Nat)) :
    (stableSortByKey k l).filter (fun a => decide (k a = key0)) =
      l.filter (fun a => decide (k a = key0)) := by
  induction l with
  | nil => rfl
  | cons a tl ih =>
    show (insertByKey k a (stableSortByKey k tl)).filter _ = _
    by_cases ha : k a = key0
    · rw [filter_insertByKey_eq _ ha, ih]
      simp [List.filter_cons, ha]
    · rw [filter_insertByKey_ne _ ha, ih]
      simp [List.filter_cons, ha]

/-- C5: the Merger's sort of one prefix's Group1 list is a permutation of
the input, sorted ascending by the `(major, minor)` key extracted from
each Grid's first TableID value (a Grid whose first TableID fails the
pattern gets the key `none`, the embedding of `(inf, inf)`, which sorts
after every numeric key — so no failing Grid ever precedes a matching
one); ties keep their input order (stability: the sublist with any fixed
key is unchanged); and the TableID values `表A-2-12, 表A-1-5, 表A-2-1`
sort to `表A-1-5, 表A-2-1, 表A-2-12`. -/
theorem c5_merger_sort (pfx : String) (l : List (Grid × String))
    (key0 : Option (Nat × Nat)) :
    List.Perm (sortGroup1 pfx l) l ∧
    (sortGroup1 pfx l).Pairwise
      (fun a b => sortKeyLe (gridKey pfx a) (gridKey pfx b) = true) ∧
    (sortGroup1 pfx l).Pairwise
      (fun a b => gridKey pfx a = none → gridKey pfx b = none) ∧
    (sortGroup1 pfx l).filter (fun a => decide (gridKey pfx a = key0)) =
      l.filter (fun a => decide (gridKey pfx a = key0)) ∧
    sortGroup1 "表"
      [(⟨["表"], [["表A-2-12"]]⟩, "a"), (⟨["表"], [["表A-1-5"]]⟩, "b"),
       (⟨["表"], [["表A-2-1"]]⟩, "c")] =
      [(⟨["表"], [["表A-1-5"]]⟩, "b"), (⟨["表"], [["表A-2-1"]]⟩, "c"),
       (⟨["表"], [["表A-2-12"]]⟩, "a")] := by
  refine ⟨stableSortByKey_perm _ l, stableSortByKey_pairwise _ l, ?_,
    filter_stableSortByKey _ l key0, rfl⟩
  refine (stableSortByKey_pairwise _ l).imp ?_
  intro a b hab hna
  rcases hb : gridKey pfx b with _ | k2
  · rfl
  · rw [hna, hb] at hab
    simp [sortKeyLe] at hab

end Bugakari

namespace Bugakari

/-! ## Column-index and getD helper lemmas -/

lemma colIdx_cons_eq (c : String) (l : List String) : colIdx (c :: l) c = 0 := by
  simp [colIdx, List.findIdx_cons]

lemma colIdx_cons_ne {c a : String} (l : List String) (h : c ≠ a) :
    colIdx (a :: l) c = colIdx l c + 1 := by
  have hb : (a == c) = false := beq_eq_false_iff_ne.mpr (Ne.symm h)
  simp [colIdx, List.findIdx_cons, hb]

lemma colIdx_append_not_mem {c : String} {l1 : List String}
    (l2 : List String) (h : c ∉ l1) :
    colIdx (l1 ++ l2) c = l1.length + colIdx l2 c := by
  induction l1 with
  | nil => simp
  | cons a tl ih =>
    have hca : c ≠ a := fun hc => h (by rw [hc]; exact List.mem_cons_self a tl)
    have htl : c ∉ tl := fun hc => h (List.mem_cons_of_mem a hc)
    rw [List.cons_append, colIdx_cons_ne _ hca, ih htl, List.length_cons]
    omega

lemma colIdx_append_mem {c : String} {l1 : List String}
    (l2 : List String) (h : c ∈ l1) :
    colIdx (l1 ++ l2) c = colIdx l1 c := by
  induction l1 with
  | nil => cases h
  | cons a tl ih =>
    by_cases hca : c = a
    · subst hca
      rw [List.cons_append, colIdx_cons_eq, colIdx_cons_eq]
    · have htl : c ∈ tl := by
        rcases List.mem_cons.mp h with h' | h'
        · exact absurd h' hca
        · exact h'
      rw [List.cons_append, colIdx_cons_ne _ hca, colIdx_cons_ne _ hca, ih htl]

lemma getD_mem {l : List String} {j : Nat} (h : j < l.length) (d : String) :
    l.getD j d ∈ l := by
  induction l generalizing j with
  | nil => simp at h
  | cons a tl ih =>
    cases j with
    | zero => simp
    | succ j =>
      rw [List.getD_cons_succ]
      exact List.mem_cons_of_mem a (ih (by simpa using h))

lemma colIdx_getD_nodup {l : List String} {j : Nat} (hn : l.Nodup)
    (hj : j < l.length) (d : String) : colIdx l (l.getD j d) = j := by
  induction l generalizing j with
  | nil => simp at hj
  | cons a tl ih =>
    rcases List.nodup_cons.mp hn with ⟨ha, htl⟩
    cases j with
    | zero => rw [List.getD_cons_zero, colIdx_cons_eq]
    | succ j =>
      have hjlt : j < tl.length := by simpa using hj
      rw [List.getD_cons_succ,
        colIdx_cons_ne _ (fun h => ha (by rw [← h]; exact getD_mem hjlt d)),
        ih htl hjlt]

lemma getD_append_len {α : Type} (l1 l2 : List α) (i : Nat) (d : α) :
    (l1 ++ l2).getD (l1.length + i) d = l2.getD i d := by
  induction l1 with
  | nil => simp
  | cons a tl ih =>
    rw [List.cons_append, List.length_cons]
    have : tl.length + 1 + i = (tl.length + i) + 1 := by omega
    rw [this, List.getD_cons_succ, ih]

lemma getD_set_self {α : Type} {l : List α} {i : Nat} (h : i < l.length)
    (v d : α) : (l.set i v).getD i d = v := by
  induction l generalizing i with
  | nil => simp at h
  | cons a tl ih =>
    cases i with
    | zero => rfl
    | succ i =>
      rw [List.set_cons_succ, List.getD_cons_succ]
      exact ih (by simpa using h) 

lemma getD_set_ne {α : Type} {l : List α} {i j : Nat} (h : i ≠ j)
    (v d : α) : (l.set i v).getD j d = l.getD j d := by
  induction l generalizing i j with
  | nil => simp
  | cons a tl ih =>
    cases i with
    | zero =>
      cases j with
      | zero => exact absurd rfl h
      | succ j => rfl
    | succ i =>
      cases j with
      | zero => rfl
      | succ j =>
        rw [List.set_cons_succ, List.getD_cons_succ, List.getD_cons_succ]
        exact ih (fun hc => h (by omega))

lemma map_getD_range {α : Type} (l : List α) (d : α) :
    (List.range l.length).map (fun j => l.getD j d) = l := by
  induction l with
  | nil => rfl
  | cons a tl ih =>
    rw [List.length_cons, List.range_succ_eq_map, List.map_cons,
      List.map_map]
    show a :: (List.range tl.length).map
      ((fun j => (a :: tl).getD j d) ∘ Nat.succ) = a :: tl
    have hc : ((fun j => (a :: tl).getD j d) ∘ Nat.succ) =
        fun j => tl.getD j d := funext fun j => rfl
    rw [hc, ih]

lemma flatMap_map_succ {α : Type} (f : Nat → List α) (l : List Nat) :
    (l.map Nat.succ).flatMap f = l.flatMap (fun j => f (j + 1)) := by
  induction l with
  | nil => rfl
  | cons a tl ih => simp [List.flatMap_cons, ih]

lemma flatMap_getD_range {α β : Type} (l : List α) (f : α → List β) (d : α) :
    (List.range l.length).flatMap (fun j => f (l.getD j d)) = l.flatMap f := by
  induction l with
  | nil => rfl
  | cons a tl ih =>
    rw [List.length_cons, List.range_succ_eq_map, List.flatMap_cons,
      flatMap_map_succ]
    show f a ++ (List.range tl.length).flatMap
      (fun j => f ((a :: tl).getD (j + 1) d)) = _
    simp only [List.getD_cons_succ, List.flatMap_cons]
    rw [ih]

/-! ## C3 — corrected: the melt does not require Remarks at column 6 -/

/-- C3 counterexample: a Grid whose column 6 is `Y` (not `備考`) is
nevertheless melted successfully — the transform does not report "not
applicable". -/
theorem c3_counterexample :
    ((⟨["表", "作業名", "名称", "摘要", "単位", "X", "Y", "備考"],
       [["t", "w", "n", "d", "u", "x", "y", "b"]]⟩ : Grid).cols.getD 6 "" =
        "Y" ∧ ("Y" : String) ≠ "備考") ∧
    handle_multi_column_expansion_case
      ⟨["表", "作業名", "名称", "摘要", "単位", "X", "Y", "備考"],
       [["t", "w", "n", "d", "u", "x", "y", "b"]]⟩ "f" expectedBaseColumns =
    .ok ⟨["表", "作業名", "名称", "摘要", "単位", "所要量", "備考"],
         [["t", "wX", "n", "d", "u", "x", "b"],
          ["t", "wY", "n", "d", "u", "y", "b"]]⟩ :=
  ⟨⟨rfl, by decide⟩, rfl⟩

/-- C3 amended: the multi-column melt does not require column 6 to be
`備考` (Remarks).  It requires at least two columns strictly between
`単位` and the first `備考` occurrence, so (for distinct column names) a
Grid whose column 6 is `備考` is never melted — the melt reports "not
applicable" — while a Grid whose column 6 is not `備考` (with `備考`
further right) can be melted. -/
theorem c3_amended :
    (∀ (g : Grid) (fp : String), g.cols.Nodup →
      g.cols.getD 6 "" = "備考" → 6 < g.cols.length →
      ∃ msg, handle_multi_column_expansion_case g fp expectedBaseColumns =
        .error msg) ∧
    (∃ g2, handle_multi_column_expansion_case
        ⟨["表", "作業名", "名称", "摘要", "単位", "X", "Y", "備考"],
         [["t", "w", "n", "d", "u", "x", "y", "b"]]⟩ "f"
        expectedBaseColumns = .ok g2) := by
  constructor
  · intro g fp hnd h6 hlen
    have hidx : colIdx g.cols "備考" = 6 := by
      have h := colIdx_getD_nodup hnd hlen ""
      rw [h6] at h
      exact h
    simp only [handle_multi_column_expansion_case]
    split_ifs with h1 h2 h3 h4
    · exact ⟨_, rfl⟩
    · exact ⟨_, rfl⟩
    · exfalso
      have htake : g.cols.take 5 = expectedBaseColumns.take 5 :=
        not_ne_iff.mp h4
      have hcols : g.cols =
          ["表", "作業名", "名称", "摘要", "単位"] ++ g.cols.drop 5 := by
        have h5 := List.take_append_drop 5 g.cols
        rw [htake] at h5
        exact h5.symm
      have hunit : colIdx g.cols "単位" = 4 := by
        rw [hcols, colIdx_append_mem _ (by decide)]
        rfl
      rw [hunit, hidx] at h3
      omega
    · exact ⟨_, rfl⟩
    · exact ⟨_, rfl⟩
  · exact ⟨_, rfl⟩

/-- C3 amended, witness: the canonical column list itself has `備考` at
index 6 and is rejected by the melt. -/
theorem c3_amended_witness :
    (expectedBaseColumns.Nodup ∧
     (⟨expectedBaseColumns, [["表A-1-1", "w", "n", "d", "u", "q", "r"]]⟩ :
       Grid).cols.getD 6 "" = "備考" ∧
     6 < (⟨expectedBaseColumns,
       [["表A-1-1", "w", "n", "d", "u", "q", "r"]]⟩ : Grid).cols.length) ∧
    ∃ msg, handle_multi_column_expansion_case
      ⟨expectedBaseColumns, [["表A-1-1", "w", "n", "d", "u", "q", "r"]]⟩ "f"
      expectedBaseColumns = .error msg := by
  refine ⟨⟨by decide, rfl, by decide⟩, ?_⟩
  exact c3_amended.1 _ "f" (by decide) rfl (by decide)

end Bugakari

namespace Bugakari

/-! ## C6 — single-column merge Grids are classified Group1 -/

/-- C6: a Grid with columns `[表,作業名,名称,摘要,単位,Extra,備考]` where
`Extra` is none of the canonical names (in particular not `所要量`), whose
first TableID value fixes a prefix (`表` or `別表`) and all of whose
TableID values pass the identifier pattern for that prefix, is classified
`Group1` (Main for `表`, Annex for `別表`) via the single-column-merge
reshape: `Extra`'s name is appended to every `作業名` cell and the
`Extra` column is renamed `所要量`, giving the canonical column order. -/
theorem c6_single_merge (ex : String) (rows : List (List String))
    (hex : ex ∉ expectedBaseColumns)
    (hlen : ∀ r ∈ rows, r.length = 7) :
    (startsWithTok "表" ((rows.headD []).getD 0 "") = true →
     startsWithTok "別表" ((rows.headD []).getD 0 "") = false →
     is_valid_table_id_pattern (rows.map (fun r => r.getD 0 "")) "表" = true →
     classify ⟨["表", "作業名", "名称", "摘要", "単位", ex, "備考"], rows⟩ =
       .group1Main ⟨expectedBaseColumns,
         rows.map (fun r => [r.getD 0 "", r.getD 1 "" ++ ex, r.getD 2 "",
           r.getD 3 "", r.getD 4 "", r.getD 5 "", r.getD 6 ""])⟩) ∧
    (startsWithTok "別表" ((rows.headD []).getD 0 "") = true →
     is_valid_table_id_pattern (rows.map (fun r => r.getD 0 "")) "別表" =
       true →
     classify ⟨["表", "作業名", "名称", "摘要", "単位", ex, "備考"], rows⟩ =
       .group1Annex ⟨expectedBaseColumns,
         rows.map (fun r => [r.getD 0 "", r.getD 1 "" ++ ex, r.getD 2 "",
           r.getD 3 "", r.getD 4 "", r.getD 5 "", r.getD 6 ""])⟩) := by
  have hne : ∀ c ∈ expectedBaseColumns, c ≠ ex :=
    fun c hc h => hex (by rw [← h]; exact hc)
  have hidxr :
      colIdx ["表", "作業名", "名称", "摘要", "単位", ex, "備考"] "備考" = 6 := by
    rw [colIdx_cons_ne _ (by decide), colIdx_cons_ne _ (by decide),
      colIdx_cons_ne _ (by decide), colIdx_cons_ne _ (by decide),
      colIdx_cons_ne _ (by decide),
      colIdx_cons_ne _ (hne "備考" (by decide)), colIdx_cons_eq]
  have hgd : (["表", "作業名", "名称", "摘要", "単位", ex, "備考"] :
      List String).getD 5 "" = ex := rfl
  have hrenG : ∀ rs : List (List String),
      renameCol ⟨["表", "作業名", "名称", "摘要", "単位", ex, "備考"], rs⟩
        ex "所要量" = ⟨expectedBaseColumns, rs⟩ := by
    intro rs
    simp only [renameCol, List.map_cons, List.map_nil]
    rw [if_neg (hne "表" (by decide)), if_neg (hne "作業名" (by decide)),
      if_neg (hne "名称" (by decide)), if_neg (hne "摘要" (by decide)),
      if_neg (hne "単位" (by decide)), if_neg (hne "備考" (by decide))]
    simp [expectedBaseColumns]
  have hselG : ∀ rs : List (List String),
      selectCols (⟨expectedBaseColumns, rs⟩ : Grid)
        (orderedColumns (⟨expectedBaseColumns, rs⟩ : Grid).cols
          expectedBaseColumns) =
      ⟨expectedBaseColumns, rs.map (fun r => [r.getD 0 "", r.getD 1 "",
        r.getD 2 "", r.getD 3 "", r.getD 4 "", r.getD 5 "",
        r.getD 6 ""])⟩ := fun rs => rfl
  have hspec : handle_special_group1_case
      ⟨["表", "作業名", "名称", "摘要", "単位", ex, "備考"], rows⟩ ""
      expectedBaseColumns =
      .ok ⟨expectedBaseColumns, rows.map (fun r => [r.getD 0 "",
        r.getD 1 "" ++ ex, r.getD 2 "", r.getD 3 "", r.getD 4 "",
        r.getD 5 "", r.getD 6 ""])⟩ := by
    have hc2 : ¬(List.take 5 ["表", "作業名", "名称", "摘要", "単位", ex,
        "備考"] ≠ List.take 5 expectedBaseColumns) := not_ne_iff.mpr rfl
    have hc3 : ¬¬(6 < (["表", "作業名", "名称", "摘要", "単位", ex, "備考"] :
        List String).length ∧
        (["表", "作業名", "名称", "摘要", "単位", ex, "備考"] :
          List String).getD 6 "" = expectedBaseColumns.getD 6 "") :=
      not_not_intro ⟨by simp, rfl⟩
    have hc4 : ¬(ex = "所要量") := fun h => hne "所要量" (by decide) h.symm
    have hcu : colIdx ["表", "作業名", "名称", "摘要", "単位", ex, "備考"]
        "単位" = 4 := by simp [colIdx, List.findIdx_cons]
    simp only [handle_special_group1_case]
    rw [hgd]
    rw [if_neg (not_not_intro ⟨by simp, by simp, by simp, by simp⟩)]
    rw [if_neg hc2]
    rw [if_neg hc3]
    rw [if_neg hc4]
    rw [hidxr, hcu]
    rw [if_neg (not_not_intro (by decide))]
    rw [show appendNameToCol
        ⟨["表", "作業名", "名称", "摘要", "単位", ex, "備考"], rows⟩
        "作業名" ex =
      ⟨["表", "作業名", "名称", "摘要", "単位", ex, "備考"],
       rows.map (fun r => r.set 1 (r.getD 1 "" ++ ex))⟩ from rfl]
    rw [hrenG, hselG, List.map_map]
    refine congrArg (fun rr =>
      Except.ok (Grid.mk expectedBaseColumns rr)) ?_
    refine List.map_congr_left ?_
    intro r hr
    have h7 : r.length = 7 := hlen r hr
    simp only [Function.comp]
    rw [getD_set_ne (by omega) _ _, getD_set_self (by omega) _ _,
      getD_set_ne (by omega) _ _, getD_set_ne (by omega) _ _,
      getD_set_ne (by omega) _ _, getD_set_ne (by omega) _ _,
      getD_set_ne (by omega) _ _]
  have key : ∀ p0 : String,
      pfxOfFirst ((rows.headD []).getD 0 "") = some p0 →
      is_valid_table_id_pattern (rows.map (fun r => r.getD 0 "")) p0 =
        true →
      classify ⟨["表", "作業名", "名称", "摘要", "単位", ex, "備考"], rows⟩ =
        group1Target p0 ⟨expectedBaseColumns,
          rows.map (fun r => [r.getD 0 "", r.getD 1 "" ++ ex, r.getD 2 "",
            r.getD 3 "", r.getD 4 "", r.getD 5 "", r.getD 6 ""])⟩ := by
    intro p0 hpfx hval
    have hre : rows ≠ [] := by
      intro h
      rw [h] at hval
      simp [is_valid_table_id_pattern] at hval
    have hstrict :
        ¬(7 ≤ (["表", "作業名", "名称", "摘要", "単位", ex, "備考"] :
            List String).length ∧
          (["表", "作業名", "名称", "摘要", "単位", ex, "備考"] :
            List String).take 7 = expectedBaseColumns) := by
      rintro ⟨-, h⟩
      have h5 : ex = "所要量" := congrArg (fun l => l.getD 5 "") h
      exact hne "所要量" (by decide) h5.symm
    simp only [classify]
    rw [if_neg (by simp [hre])]
    rw [show cellD ["表", "作業名", "名称", "摘要", "単位", ex, "備考"]
      (rows.headD []) "表" = (rows.headD []).getD 0 "" from rfl]
    rw [hpfx, if_neg hstrict]
    simp only [firstSomeC]
    rw [hspec]
    simp only [tryReshape, passPattern]
    have hcv : colValues ⟨expectedBaseColumns,
        rows.map (fun r => [r.getD 0 "", r.getD 1 "" ++ ex, r.getD 2 "",
          r.getD 3 "", r.getD 4 "", r.getD 5 "", r.getD 6 ""])⟩ "表" =
        rows.map (fun r => r.getD 0 "") := by
      simp only [colValues, List.map_map]
      rfl
    rw [hcv, if_pos hval]
    simp only [Option.map_some', firstSomeC, dispatchGroup1]
  refine ⟨?_, ?_⟩
  · intro hp1 hp2 hval
    have hpfx : pfxOfFirst ((rows.headD []).getD 0 "") = some "表" := by
      simp only [pfxOfFirst]
      rw [if_pos ⟨hp1, by rw [hp2]; exact Bool.false_ne_true⟩]
    rw [key "表" hpfx hval]
    simp [group1Target]
  · intro hp hval
    have hpfx : pfxOfFirst ((rows.headD []).getD 0 "") = some "別表" := by
      simp only [pfxOfFirst]
      rw [if_neg (fun hand => hand.2 hp), if_pos hp]
    rw [key "別表" hpfx hval]
    simp [group1Target]

/-- C6 witness: a concrete Grid with extra column `個数` and TableID
`表A-1-2` is reshaped and classified `Group1-Main`. -/
theorem c6_single_merge_witness :
    (("個数" : String) ∉ expectedBaseColumns ∧
     (∀ r ∈ [["表A-1-2", "w", "n", "d", "u", "5", "r"]],
       List.length r = 7) ∧
     startsWithTok "表" "表A-1-2" = true ∧
     startsWithTok "別表" "表A-1-2" = false ∧
     is_valid_table_id_pattern ["表A-1-2"] "表" = true) ∧
    classify ⟨["表", "作業名", "名称", "摘要", "単位", "個数", "備考"],
      [["表A-1-2", "w", "n", "d", "u", "5", "r"]]⟩ =
    .group1Main ⟨expectedBaseColumns,
      [["表A-1-2", "w個数", "n", "d", "u", "5", "r"]]⟩ := by
  refine ⟨⟨by decide, by decide, by decide, by decide, by decide⟩, ?_⟩
  have h := (c6_single_merge "個数"
    [["表A-1-2", "w", "n", "d", "u", "5", "r"]] (by decide) (by decide)).1
    (by decide) (by decide) (by decide)
  rw [h]
  rfl

end Bugakari

namespace Bugakari

lemma flatMap_congr {α β : Type} {l : List α} {f g : α → List β}
    (h : ∀ a ∈ l, f a = g a) : l.flatMap f = l.flatMap g := by
  induction l with
  | nil => rfl
  | cons a tl ih =>
    simp only [List.flatMap_cons]
    rw [h a (List.mem_cons_self a tl),
      ih (fun x hx => h x (List.mem_cons_of_mem a hx))]

lemma map_eq_range_getD {α β : Type} (l : List α) (f : α → β) (d : α) :
    l.map f = (List.range l.length).map (fun i => f (l.getD i d)) := by
  conv_lhs => rw [← map_getD_range l d]
  rw [List.map_map]
  rfl

lemma getD_append_lt {α : Type} {l1 : List α} (l2 : List α) {j : Nat}
    (h : j < l1.length) (d : α) : (l1 ++ l2).getD j d = l1.getD j d := by
  induction l1 generalizing j with
  | nil => simp at h
  | cons a tl ih =>
    cases j with
    | zero => rfl
    | succ j => exact ih (by simpa using h)

lemma contains_true_of_mem {a : String} {l : List String} (h : a ∈ l) :
    l.contains a = true := by simpa [List.elem_iff] using h

lemma contains_false_of_not_mem {a : String} {l : List String} (h : a ∉ l) :
    l.contains a = false := by
  simp [List.contains, List.elem_iff]
  exact h

lemma map_snd_zip_len {α β : Type} :
    ∀ (l1 : List α) (l2 : List β), l1.length = l2.length →
    (l1.zip l2).map Prod.snd = l2 := by
  intro l1
  induction l1 with
  | nil =>
    intro l2 h
    cases l2
    · rfl
    · simp at h
  | cons a tl ih =>
    intro l2 h
    cases l2 with
    | nil => simp at h
    | cons b tl2 =>
      simp only [List.zip_cons_cons, List.map_cons]
      rw [ih tl2 (by simpa using h)]

lemma map_of_flatMap {α β γ : Type} (l : List α) (f : α → List β)
    (g : β → γ) :
    (l.flatMap f).map g = l.flatMap (fun a => (f a).map g) := by
  induction l with
  | nil => rfl
  | cons a tl ih => simp only [List.flatMap_cons, List.map_append, ih]

lemma length_flatMap_const {α β : Type} (l : List α) (f : α → List β)
    (k : Nat) (h : ∀ a ∈ l, (f a).length = k) :
    (l.flatMap f).length = k * l.length := by
  induction l with
  | nil => simp
  | cons a tl ih =>
    simp only [List.flatMap_cons, List.length_append, List.length_cons]
    rw [h a (List.mem_cons_self _ _),
      ih (fun x hx => h x (List.mem_cons_of_mem _ hx))]
    ring

lemma orderedFold_skip (expected : List String) :
    ∀ (l acc : List String), (∀ c ∈ l, expected.contains c = true) →
    l.foldl (fun acc c => if !(expected.contains c) && !(acc.contains c)
      then acc ++ [c] else acc) acc = acc := by
  intro l
  induction l with
  | nil => intro acc _; rfl
  | cons x xs ih =>
    intro acc h
    rw [List.foldl_cons]
    rw [show (if !(expected.contains x) && !(acc.contains x)
        then acc ++ [x] else acc) = acc from by
      rw [h x (List.mem_cons_self _ _)]
      simp]
    exact ih acc (fun c hc => h c (List.mem_cons_of_mem _ hc))

lemma orderedFold_append (expected : List String) :
    ∀ (l acc : List String), l.Nodup →
    (∀ c ∈ l, expected.contains c = false) →
    (∀ c ∈ l, acc.contains c = false) →
    l.foldl (fun acc c => if !(expected.contains c) && !(acc.contains c)
      then acc ++ [c] else acc) acc = acc ++ l := by
  intro l
  induction l with
  | nil => intro acc _ _ _; simp
  | cons x xs ih =>
    intro acc hnd hexp hacc
    rcases List.nodup_cons.mp hnd with ⟨hxm, hnd2⟩
    rw [List.foldl_cons]
    rw [show (if !(expected.contains x) && !(acc.contains x)
        then acc ++ [x] else acc) = acc ++ [x] from by
      rw [hexp x (List.mem_cons_self _ _), hacc x (List.mem_cons_self _ _)]
      simp]
    have hacc2 : ∀ c ∈ xs, (acc ++ [x]).contains c = false := by
      intro c hc
      refine contains_false_of_not_mem ?_
      intro hm
      rcases List.mem_append.mp hm with hm1 | hm1
      · exact absurd (contains_true_of_mem hm1)
          (by rw [hacc c (List.mem_cons_of_mem _ hc)]
              exact Bool.false_ne_true)
      · exact hxm ((List.mem_singleton.mp hm1) ▸ hc)
    rw [ih (acc ++ [x]) hnd2
      (fun c hc => hexp c (List.mem_cons_of_mem _ hc)) hacc2]
    simp

lemma orderedColumns_melt (extrasC : List String) (hndE : extrasC.Nodup)
    (hEexp : ∀ c ∈ extrasC, c ∉ expectedBaseColumns) :
    orderedColumns ((["表", "作業名", "名称", "摘要", "単位"] ++
        ("備考" :: extrasC)) ++ ["所要量"]) expectedBaseColumns =
      expectedBaseColumns ++ extrasC := by
  unfold orderedColumns
  have hbase : expectedBaseColumns.filter
      (fun c => ((["表", "作業名", "名称", "摘要", "単位"] ++
        ("備考" :: extrasC)) ++ ["所要量"]).contains c) =
      expectedBaseColumns := by
    refine List.filter_eq_self.mpr ?_
    intro a ha
    refine contains_true_of_mem ?_
    simp only [expectedBaseColumns, List.mem_cons, List.not_mem_nil,
      or_false] at ha
    rcases ha with rfl | rfl | rfl | rfl | rfl | rfl | rfl <;> simp
  rw [hbase]
  rw [List.foldl_append, List.foldl_append]
  rw [orderedFold_skip expectedBaseColumns
    ["表", "作業名", "名称", "摘要", "単位"] expectedBaseColumns (by decide)]
  rw [show ("備考" :: extrasC).foldl (fun acc c =>
      if !(expectedBaseColumns.contains c) && !(acc.contains c)
      then acc ++ [c] else acc) expectedBaseColumns =
      extrasC.foldl (fun acc c =>
      if !(expectedBaseColumns.contains c) && !(acc.contains c)
      then acc ++ [c] else acc) expectedBaseColumns from rfl]
  rw [orderedFold_append expectedBaseColumns extrasC expectedBaseColumns hndE
    (fun c hc => contains_false_of_not_mem (hEexp c hc))
    (fun c hc => contains_false_of_not_mem (hEexp c hc))]
  exact orderedFold_skip expectedBaseColumns ["所要量"]
    (expectedBaseColumns ++ extrasC) (by decide)

end Bugakari

namespace Bugakari

lemma grid_cols_mk (c : List String) (r : List (List String)) :
    (Grid.mk c r).cols = c := rfl

lemma grid_rows_mk (c : List String) (r : List (List String)) :
    (Grid.mk c r).rows = r := rfl

/-- C1 amended (`handle_multi_column_expansion_case`, `merge_tables.py:150-176`):
on a frame whose columns are the five base labels, then `n >= 2`
intervening columns, then `備考` and trailing extra columns (all distinct),
the melt succeeds and returns the expected base columns followed by the
extras; its output rows are grouped per intervening column — for each
intervening column in original position order, all original rows in input
order — and the row count is (original rows) x (intervening columns).
The spec (§4.3b) instead claims the rows are emitted per original row;
that ordering is refuted by `c1_counterexample`. -/
theorem c1_amended (midsC extrasC : List String) (ps : List MeltRowParts)
    (fp : String) (h2 : 2 ≤ midsC.length)
    (hnd : (["表", "作業名", "名称", "摘要", "単位"] ++ midsC ++
      "備考" :: extrasC).Nodup)
    (hq1 : "所要量" ∉ midsC) (hq2 : "所要量" ∉ extrasC)
    (ht2 : "展開列名" ∉ extrasC)
    (hms : ∀ p ∈ ps, p.ms.length = midsC.length)
    (hes : ∀ p ∈ ps, p.es.length = extrasC.length) :
    handle_multi_column_expansion_case
      ⟨["表", "作業名", "名称", "摘要", "単位"] ++ midsC ++ "備考" :: extrasC,
       ps.map meltRowFlat⟩ fp expectedBaseColumns =
      .ok ⟨expectedBaseColumns ++ extrasC,
        (List.range midsC.length).flatMap (fun j =>
          ps.map (fun p => [p.tid, p.wn ++ midsC.getD j "", p.nm, p.ds,
            p.un, p.ms.getD j "", p.rk] ++ p.es))⟩ ∧
    ((List.range midsC.length).flatMap (fun j =>
        ps.map (fun p => [p.tid, p.wn ++ midsC.getD j "", p.nm, p.ds,
          p.un, p.ms.getD j "", p.rk] ++ p.es))).length =
      ps.length * midsC.length := by
  simp only [List.append_assoc] at hnd ⊢
  obtain ⟨hndL, hndR, hdisjLR⟩ := List.nodup_append.mp hnd
  obtain ⟨hndM, hndBE, hdisjMBE⟩ := List.nodup_append.mp hndR
  obtain ⟨hBnotE, hndE⟩ := List.nodup_cons.mp hndBE
  have hBnotM : "備考" ∉ midsC := fun h => hdisjMBE h (List.mem_cons_self _ _)
  have hMnotL : ∀ m ∈ midsC,
      m ∉ (["表", "作業名", "名称", "摘要", "単位"] : List String) :=
    fun m hm hL => hdisjLR hL (List.mem_append_left _ hm)
  have hEnotL : ∀ c ∈ extrasC,
      c ∉ (["表", "作業名", "名称", "摘要", "単位"] : List String) :=
    fun c hc hL => hdisjLR hL
      (List.mem_append_right _ (List.mem_cons_of_mem _ hc))
  have hEnotM : ∀ c ∈ extrasC, c ∉ midsC :=
    fun c hc hm => hdisjMBE hm (List.mem_cons_of_mem _ hc)
  have hEnotB : ∀ c ∈ extrasC, c ≠ "備考" :=
    fun c hc h => hBnotE (by rw [← h]; exact hc)
  have hcu : colIdx (["表", "作業名", "名称", "摘要", "単位"] ++
      (midsC ++ "備考" :: extrasC)) "単位" = 4 := by
    simp [colIdx, List.findIdx_cons]
  have hcr : colIdx (["表", "作業名", "名称", "摘要", "単位"] ++
      (midsC ++ "備考" :: extrasC)) "備考" = 5 + midsC.length := by
    rw [colIdx_append_not_mem _ (by decide),
      colIdx_append_not_mem _ hBnotM, colIdx_cons_eq]
    simp
  have hmelt : meltGrid
      ⟨["表", "作業名", "名称", "摘要", "単位"] ++ (midsC ++ "備考" :: extrasC),
       ps.map meltRowFlat⟩
      (["表", "作業名", "名称", "摘要", "単位"] ++ "備考" :: extrasC) midsC
      "展開列名" "所要量" =
      ⟨(["表", "作業名", "名称", "摘要", "単位"] ++ "備考" :: extrasC) ++
        ["展開列名", "所要量"],
       (List.range midsC.length).flatMap (fun j => ps.map (fun p =>
         ([p.tid, p.wn, p.nm, p.ds, p.un] ++ p.rk :: p.es) ++
           [midsC.getD j "", p.ms.getD j ""]))⟩ := by
    simp only [meltGrid]
    congr 1
    simp only [List.map_map]
    rw [← flatMap_getD_range midsC _ ""]
    refine flatMap_congr ?_
    intro j hj
    have hjk : j < midsC.length := List.mem_range.mp hj
    refine List.map_congr_left ?_
    intro p hp
    have hms2 := hms p hp
    have hes2 := hes p hp
    have hrowflat : meltRowFlat p =
        [p.tid, p.wn, p.nm, p.ds, p.un] ++ (p.ms ++ p.rk :: p.es) := by
      simp [meltRowFlat, List.append_assoc]
    simp only [Function.comp]
    have hrkcell : cellD (["表", "作業名", "名称", "摘要", "単位"] ++
        (midsC ++ "備考" :: extrasC)) (meltRowFlat p) "備考" = p.rk := by
      simp only [cellD]
      rw [hcr, hrowflat]
      rw [show (5 : Nat) + midsC.length =
        ([p.tid, p.wn, p.nm, p.ds, p.un] : List String).length +
          midsC.length from by simp]
      rw [getD_append_len, ← hms2,
        show p.ms.length = p.ms.length + 0 from by omega, getD_append_len]
      rfl
    have hescells : extrasC.map (fun c =>
        cellD (["表", "作業名", "名称", "摘要", "単位"] ++
          (midsC ++ "備考" :: extrasC)) (meltRowFlat p) c) = p.es := by
      rw [map_eq_range_getD extrasC (fun c =>
        cellD (["表", "作業名", "名称", "摘要", "単位"] ++
          (midsC ++ "備考" :: extrasC)) (meltRowFlat p) c) ""]
      rw [← map_getD_range p.es "", hes2]
      refine List.map_congr_left ?_
      intro i hi
      have hie : i < extrasC.length := List.mem_range.mp hi
      have hcE : colIdx (["表", "作業名", "名称", "摘要", "単位"] ++
          (midsC ++ "備考" :: extrasC)) (extrasC.getD i "") =
          5 + (midsC.length + (i + 1)) := by
        rw [colIdx_append_not_mem _ (hEnotL _ (getD_mem hie "")),
          colIdx_append_not_mem _ (hEnotM _ (getD_mem hie "")),
          colIdx_cons_ne _ (hEnotB _ (getD_mem hie "")),
          colIdx_getD_nodup hndE hie]
        simp
      simp only [cellD]
      rw [hcE, hrowflat]
      rw [show (5 : Nat) + (midsC.length + (i + 1)) =
        ([p.tid, p.wn, p.nm, p.ds, p.un] : List String).length +
          (midsC.length + (i + 1)) from by simp]
      rw [getD_append_len, ← hms2, getD_append_len, List.getD_cons_succ]
    have hqcell : cellD (["表", "作業名", "名称", "摘要", "単位"] ++
        (midsC ++ "備考" :: extrasC)) (meltRowFlat p) (midsC.getD j "") =
        p.ms.getD j "" := by
      have hcM : colIdx (["表", "作業名", "名称", "摘要", "単位"] ++
          (midsC ++ "備考" :: extrasC)) (midsC.getD j "") = 5 + j := by
        rw [colIdx_append_not_mem _ (hMnotL _ (getD_mem hjk "")),
          colIdx_append_mem _ (getD_mem hjk ""),
          colIdx_getD_nodup hndM hjk]
        simp
      simp only [cellD]
      rw [hcM, hrowflat]
      rw [show (5 : Nat) + j =
        ([p.tid, p.wn, p.nm, p.ds, p.un] : List String).length + j from
          by simp]
      rw [getD_append_len]
      rw [getD_append_lt _ (by rw [hms2]; exact hjk)]
    simp only [List.map_append, List.map_cons, List.map_nil]
    rw [hrkcell, hescells, hqcell]
    rfl
  refine ⟨?_, ?_⟩
  · simp only [handle_multi_column_expansion_case]
    have hc1 : "所要量" ∉ ["表", "作業名", "名称", "摘要", "単位"] ++
        (midsC ++ "備考" :: extrasC) := by
      simp [hq1, hq2]
    rw [if_neg hc1]
    have hc2 : ("単位" ∈ ["表", "作業名", "名称", "摘要", "単位"] ++
        (midsC ++ "備考" :: extrasC) ∧
        "備考" ∈ ["表", "作業名", "名称", "摘要", "単位"] ++
          (midsC ++ "備考" :: extrasC) ∧
        "作業名" ∈ ["表", "作業名", "名称", "摘要", "単位"] ++
          (midsC ++ "備考" :: extrasC) ∧
        "表" ∈ ["表", "作業名", "名称", "摘要", "単位"] ++
          (midsC ++ "備考" :: extrasC)) := ⟨by simp, by simp, by simp, by simp⟩
    rw [if_neg (not_not_intro hc2)]
    rw [hcu, hcr]
    have hguard : (((4 : Nat) : Int) < ((5 + midsC.length : Nat) : Int) - 1 ∧
        ((5 + midsC.length : Nat) : Int) - ((4 : Nat) : Int) - 1 > 1) :=
      ⟨by omega, by omega⟩
    rw [if_neg (not_not_intro hguard)]
    have htake5 : (["表", "作業名", "名称", "摘要", "単位"] ++
        (midsC ++ "備考" :: extrasC)).take 5 =
        ["表", "作業名", "名称", "摘要", "単位"] := by
      simpa using List.take_left
        (["表", "作業名", "名称", "摘要", "単位"] : List String)
        (midsC ++ "備考" :: extrasC)
    rw [if_neg (not_ne_iff.mpr (htake5.trans (by decide)))]
    rw [show 5 + midsC.length - (4 + 1) = midsC.length from by omega]
    rw [show ((["表", "作業名", "名称", "摘要", "単位"] ++
      (midsC ++ "備考" :: extrasC)).drop (4 + 1)) =
      midsC ++ "備考" :: extrasC from rfl]
    rw [List.take_left]
    rw [show ((["表", "作業名", "名称", "摘要", "単位"] ++
      (midsC ++ "備考" :: extrasC)).take (4 + 1)) =
      ["表", "作業名", "名称", "摘要", "単位"] from rfl]
    have hdropr : (["表", "作業名", "名称", "摘要", "単位"] ++
        (midsC ++ "備考" :: extrasC)).drop (5 + midsC.length) =
        "備考" :: extrasC := by
      rw [show (["表", "作業名", "名称", "摘要", "単位"] ++
          (midsC ++ "備考" :: extrasC)) =
          ((["表", "作業名", "名称", "摘要", "単位"] ++ midsC) ++
            "備考" :: extrasC) from by rw [List.append_assoc]]
      rw [show 5 + midsC.length =
        ((["表", "作業名", "名称", "摘要", "単位"] : List String) ++
          midsC).length from by
        simp only [List.length_append, List.length_cons, List.length_nil]]
      exact List.drop_left _ _
    rw [hdropr]
    rw [hmelt]
    have hEexp : ∀ c ∈ extrasC, c ∉ expectedBaseColumns := by
      intro c hc hmem
      simp only [expectedBaseColumns, List.mem_cons, List.not_mem_nil,
        or_false] at hmem
      rcases hmem with rfl | rfl | rfl | rfl | rfl | rfl | rfl
      · exact hEnotL _ hc (by decide)
      · exact hEnotL _ hc (by decide)
      · exact hEnotL _ hc (by decide)
      · exact hEnotL _ hc (by decide)
      · exact hEnotL _ hc (by decide)
      · exact hq2 hc
      · exact hBnotE hc
    have hTnL : "展開列名" ∉ (["表", "作業名", "名称", "摘要", "単位"] ++
        "備考" :: extrasC) := by
      simp [ht2]
    have hidxW : colIdx ((["表", "作業名", "名称", "摘要", "単位"] ++
        "備考" :: extrasC) ++ ["展開列名", "所要量"]) "作業名" = 1 := by
      rw [colIdx_append_mem _ (List.mem_append_left _ (by decide)),
        colIdx_append_mem _ (by decide)]
      decide
    have hidxT : colIdx ((["表", "作業名", "名称", "摘要", "単位"] ++
        "備考" :: extrasC) ++ ["展開列名", "所要量"]) "展開列名" =
        6 + extrasC.length := by
      rw [colIdx_append_not_mem _ hTnL, colIdx_cons_eq]
      simp only [List.length_append, List.length_cons, List.length_nil]
      all_goals omega
    have happend : appendColToCol
        ⟨(["表", "作業名", "名称", "摘要", "単位"] ++ "備考" :: extrasC) ++
          ["展開列名", "所要量"],
         (List.range midsC.length).flatMap (fun j => ps.map (fun p =>
           ([p.tid, p.wn, p.nm, p.ds, p.un] ++ p.rk :: p.es) ++
             [midsC.getD j "", p.ms.getD j ""]))⟩ "作業名" "展開列名" =
        ⟨(["表", "作業名", "名称", "摘要", "単位"] ++ "備考" :: extrasC) ++
          ["展開列名", "所要量"],
         (List.range midsC.length).flatMap (fun j => ps.map (fun p =>
           ([p.tid, p.wn ++ midsC.getD j "", p.nm, p.ds, p.un] ++
             p.rk :: p.es) ++ [midsC.getD j "", p.ms.getD j ""]))⟩ := by
      simp only [appendColToCol, grid_cols_mk, grid_rows_mk, hidxW, hidxT]
      congr 1
      rw [map_of_flatMap]
      refine flatMap_congr ?_
      intro j hj
      rw [List.map_map]
      refine List.map_congr_left ?_
      intro p hp
      have hes2 := hes p hp
      simp only [Function.comp]
      have hg1 : (([p.tid, p.wn, p.nm, p.ds, p.un] ++ p.rk :: p.es) ++
          [midsC.getD j "", p.ms.getD j ""]).getD 1 "" = p.wn := rfl
      have hgm : (([p.tid, p.wn, p.nm, p.ds, p.un] ++ p.rk :: p.es) ++
          [midsC.getD j "", p.ms.getD j ""]).getD (6 + extrasC.length) "" =
          midsC.getD j "" := by
        rw [show 6 + extrasC.length =
          ([p.tid, p.wn, p.nm, p.ds, p.un] ++ p.rk :: p.es).length + 0 from by
          simp only [List.length_append, List.length_cons, List.length_nil]
          all_goals omega]
        rw [getD_append_len]
        rfl
      rw [hg1, hgm]
      rfl
    have hdropcols : (((["表", "作業名", "名称", "摘要", "単位"] ++
        "備考" :: extrasC) ++ ["展開列名", "所要量"]).filter
        (fun x => x != "展開列名")) =
        (["表", "作業名", "名称", "摘要", "単位"] ++ "備考" :: extrasC) ++
          ["所要量"] := by
      have hkeep : List.filter (fun x => x != "展開列名")
          (["表", "作業名", "名称", "摘要", "単位"] ++ "備考" :: extrasC) =
          ["表", "作業名", "名称", "摘要", "単位"] ++ "備考" :: extrasC :=
        List.filter_eq_self.mpr (fun a ha =>
          bne_iff_ne.mpr (fun h => hTnL (h ▸ ha)))
      have hlit : List.filter (fun x => x != "展開列名")
          (["展開列名", "所要量"] : List String) = ["所要量"] := by decide
      rw [List.filter_append, hkeep, hlit]
    have hdrop : dropCol
        ⟨(["表", "作業名", "名称", "摘要", "単位"] ++ "備考" :: extrasC) ++
          ["展開列名", "所要量"],
         (List.range midsC.length).flatMap (fun j => ps.map (fun p =>
           ([p.tid, p.wn ++ midsC.getD j "", p.nm, p.ds, p.un] ++
             p.rk :: p.es) ++ [midsC.getD j "", p.ms.getD j ""]))⟩
        "展開列名" =
        ⟨(["表", "作業名", "名称", "摘要", "単位"] ++ "備考" :: extrasC) ++
          ["所要量"],
         (List.range midsC.length).flatMap (fun j => ps.map (fun p =>
           ([p.tid, p.wn ++ midsC.getD j "", p.nm, p.ds, p.un] ++
             p.rk :: p.es) ++ [p.ms.getD j ""]))⟩ := by
      simp only [dropCol, grid_cols_mk, grid_rows_mk]
      rw [hdropcols]
      congr 1
      rw [map_of_flatMap]
      refine flatMap_congr ?_
      intro j hj
      rw [List.map_map]
      refine List.map_congr_left ?_
      intro p hp
      have hes2 := hes p hp
      simp only [Function.comp]
      have hlen : (["表", "作業名", "名称", "摘要", "単位"] ++
          "備考" :: extrasC).length =
          ([p.tid, p.wn ++ midsC.getD j "", p.nm, p.ds, p.un] ++
            p.rk :: p.es).length := by
        simp only [List.length_append, List.length_cons, List.length_nil]
        all_goals omega
      rw [List.zip_append hlen, List.filter_append, List.map_append]
      rw [List.filter_eq_self.mpr (fun pr hpr =>
        bne_iff_ne.mpr (fun h => hTnL (by
          rw [← h]; exact (List.of_mem_zip hpr).1)))]
      rw [map_snd_zip_len _ _ hlen]
      rfl
    have hqcol : colIdx ((["表", "作業名", "名称", "摘要", "単位"] ++
        "備考" :: extrasC) ++ ["所要量"]) "所要量" = 6 + extrasC.length := by
      rw [colIdx_append_not_mem _ (by simp [hq2]), colIdx_cons_eq]
      simp only [List.length_append, List.length_cons, List.length_nil]
      all_goals omega
    have hselect : selectCols
        ⟨(["表", "作業名", "名称", "摘要", "単位"] ++ "備考" :: extrasC) ++
          ["所要量"],
         (List.range midsC.length).flatMap (fun j => ps.map (fun p =>
           ([p.tid, p.wn ++ midsC.getD j "", p.nm, p.ds, p.un] ++
             p.rk :: p.es) ++ [p.ms.getD j ""]))⟩
        (expectedBaseColumns ++ extrasC) =
        ⟨expectedBaseColumns ++ extrasC,
         (List.range midsC.length).flatMap (fun j => ps.map (fun p =>
           [p.tid, p.wn ++ midsC.getD j "", p.nm, p.ds, p.un,
             p.ms.getD j "", p.rk] ++ p.es))⟩ := by
      simp only [selectCols, grid_cols_mk, grid_rows_mk]
      congr 1
      rw [map_of_flatMap]
      refine flatMap_congr ?_
      intro j hj
      rw [List.map_map]
      refine List.map_congr_left ?_
      intro p hp
      have hes2 := hes p hp
      simp only [Function.comp]
      rw [List.map_append]
      congr 1
      · have hqv : cellD ((["表", "作業名", "名称", "摘要", "単位"] ++
            "備考" :: extrasC) ++ ["所要量"])
            (([p.tid, p.wn ++ midsC.getD j "", p.nm, p.ds, p.un] ++
              p.rk :: p.es) ++ [p.ms.getD j ""]) "所要量" =
            p.ms.getD j "" := by
          simp only [cellD]
          rw [hqcol]
          rw [show 6 + extrasC.length =
            ([p.tid, p.wn ++ midsC.getD j "", p.nm, p.ds, p.un] ++
              p.rk :: p.es).length + 0 from by
            simp only [List.length_append, List.length_cons, List.length_nil]
            all_goals omega]
          rw [getD_append_len]
          rfl
        simp only [expectedBaseColumns, List.map_cons, List.map_nil]
        rw [hqv]
        rfl
      · rw [map_eq_range_getD extrasC (fun c =>
          cellD ((["表", "作業名", "名称", "摘要", "単位"] ++
            "備考" :: extrasC) ++ ["所要量"])
            (([p.tid, p.wn ++ midsC.getD j "", p.nm, p.ds, p.un] ++
              p.rk :: p.es) ++ [p.ms.getD j ""]) c) ""]
        conv_rhs => rw [← map_getD_range p.es ""]
        rw [hes2]
        refine List.map_congr_left ?_
        intro i hi
        have hie : i < extrasC.length := List.mem_range.mp hi
        have hcE : colIdx ((["表", "作業名", "名称", "摘要", "単位"] ++
            "備考" :: extrasC) ++ ["所要量"]) (extrasC.getD i "") =
            5 + (i + 1) := by
          rw [colIdx_append_mem _ (List.mem_append_right _
              (List.mem_cons_of_mem _ (getD_mem hie ""))),
            colIdx_append_not_mem _ (hEnotL _ (getD_mem hie "")),
            colIdx_cons_ne _ (hEnotB _ (getD_mem hie "")),
            colIdx_getD_nodup hndE hie]
          simp
        simp only [cellD]
        rw [hcE]
        rw [show ([p.tid, p.wn ++ midsC.getD j "", p.nm, p.ds, p.un] ++
            p.rk :: p.es) ++ [p.ms.getD j ""] =
            [p.tid, p.wn ++ midsC.getD j "", p.nm, p.ds, p.un] ++
              p.rk :: (p.es ++ [p.ms.getD j ""]) from by simp]
        rw [show 5 + (i + 1) =
            ([p.tid, p.wn ++ midsC.getD j "", p.nm, p.ds, p.un] :
              List String).length + (i + 1) from by
          simp only [List.length_cons, List.length_nil]
          all_goals omega]
        rw [getD_append_len, List.getD_cons_succ]
        rw [getD_append_lt _ (by rw [hes2]; exact hie)]
    rw [happend, hdrop, grid_cols_mk,
      orderedColumns_melt extrasC hndE hEexp, hselect]
  · rw [length_flatMap_const _ _ ps.length (fun j hj => by
      simp only [List.length_map]), List.length_range]

/-- C1 counterexample: on a Grid with two data rows and two intervening
columns `A`, `B`, the melt emits all original rows for `A` first and then
all original rows for `B` (column-major, pandas `melt` order), not the
per-original-row (row-major) order §4.3b describes. -/
theorem c1_counterexample :
    handle_multi_column_expansion_case
      ⟨["表", "作業名", "名称", "摘要", "単位", "A", "B", "備考"],
       [["t1", "w", "n1", "d", "u", "a1", "b1", "r1"],
        ["t2", "w", "n2", "d", "u", "a2", "b2", "r2"]]⟩ "f"
      expectedBaseColumns =
      .ok ⟨expectedBaseColumns,
        [["t1", "wA", "n1", "d", "u", "a1", "r1"],
         ["t2", "wA", "n2", "d", "u", "a2", "r2"],
         ["t1", "wB", "n1", "d", "u", "b1", "r1"],
         ["t2", "wB", "n2", "d", "u", "b2", "r2"]]⟩ ∧
    ([["t1", "wA", "n1", "d", "u", "a1", "r1"],
      ["t2", "wA", "n2", "d", "u", "a2", "r2"],
      ["t1", "wB", "n1", "d", "u", "b1", "r1"],
      ["t2", "wB", "n2", "d", "u", "b2", "r2"]] : List (List String)) ≠
    [["t1", "wA", "n1", "d", "u", "a1", "r1"],
     ["t1", "wB", "n1", "d", "u", "b1", "r1"],
     ["t2", "wA", "n2", "d", "u", "a2", "r2"],
     ["t2", "wB", "n2", "d", "u", "b2", "r2"]] :=
  ⟨rfl, by decide⟩

/-- C1 amended, witness: the column-major melt shape at a concrete two-row
grid with intervening columns `A`, `B` and no extra columns. -/
theorem c1_amended_witness :
    handle_multi_column_expansion_case
      ⟨["表", "作業名", "名称", "摘要", "単位"] ++ ["A", "B"] ++
        "備考" :: ([] : List String),
       ([⟨"t1", "w", "n1", "d", "u", ["a1", "b1"], "r1", []⟩,
         ⟨"t2", "w", "n2", "d", "u", ["a2", "b2"], "r2", []⟩] :
         List MeltRowParts).map meltRowFlat⟩ "f" expectedBaseColumns =
      .ok ⟨expectedBaseColumns ++ ([] : List String),
        (List.range (["A", "B"] : List String).length).flatMap (fun j =>
          ([⟨"t1", "w", "n1", "d", "u", ["a1", "b1"], "r1", []⟩,
            ⟨"t2", "w", "n2", "d", "u", ["a2", "b2"], "r2", []⟩] :
            List MeltRowParts).map (fun p =>
            [p.tid, p.wn ++ (["A", "B"] : List String).getD j "", p.nm,
              p.ds, p.un, p.ms.getD j "", p.rk] ++ p.es))⟩ :=
  (c1_amended ["A", "B"] []
    [⟨"t1", "w", "n1", "d", "u", ["a1", "b1"], "r1", []⟩,
     ⟨"t2", "w", "n2", "d", "u", ["a2", "b2"], "r2", []⟩] "f"
    (by decide) (by decide) (by decide) (by decide) (by decide)
    (by decide) (by decide)).1

end Bugakari
